import Mathlib

/-!
Verification of the telnet wrapper (src/telnet.py).

The file shallowly embeds the module: byte strings become `List Nat`, the
`asyncio.StreamReader` state becomes an explicit `Reader` structure threaded
through each operation, and time is modelled discretely in units of
`0.0001` seconds — the smallest duration in the source — so that the
near-zero timeouts of `read_some` and `read_eager` (one unit) and the
per-chunk `asyncio.wait_for` timeout of `read_until` are reproduced exactly.
-/

set_option maxHeartbeats 1000000
set_option maxRecDepth 10000

namespace Telnet

/-- Byte strings (Python `bytes`) as lists of byte values. -/
abbrev Bytes := List Nat

/-- Model of an `asyncio.StreamReader`: `buffer` is the reader's internal
`_buffer` of bytes already pulled off the wire but not yet consumed;
`incoming` lists the chunks the peer will deliver, each paired with its
absolute arrival time, in arrival order; `closed` records that end of stream
follows the last chunk. -/
structure Reader where
  buffer : Bytes
  incoming : List (ℕ × Bytes)
  closed : Bool
deriving DecidableEq

/-- State threaded through the asynchronous backend operations: the reader
plus the current time (the event loop clock). -/
structure St where
  reader : Reader
  now : ℕ
deriving DecidableEq

/-- Outcome of one `await asyncio.wait_for(self.reader.read n, timeout)`:
data, an `asyncio.TimeoutError`, or a wait that never completes. -/
inductive RawOut where
  | ok (b : Bytes)
  | timedOut
  | blocked
deriving DecidableEq

/-- Outcome of a public read operation of the asynchronous backend: a byte
string, or a call that never returns (`blocked`). -/
inductive ROut where
  | ok (b : Bytes)
  | blocked
deriving DecidableEq

/-- All bytes the caller can still obtain from a state: the reader's internal
buffer followed by every chunk yet to arrive. -/
def content (s : St) : Bytes :=
  s.reader.buffer ++ (s.reader.incoming.map Prod.snd).flatten

/-- `await asyncio.wait_for(self.reader.read n, timeout)` as used at
src/telnet.py lines 68, 83 and 101: with a nonempty internal buffer, up to
`n` bytes are returned immediately; otherwise the call waits for the next
chunk, returning (up to `n` bytes of) it if it arrives within `timeout`,
and raising `asyncio.TimeoutError` (`timedOut`) otherwise; with the buffer
empty and the peer gone it returns the empty byte string; with no timeout
and nothing left to arrive it never completes. -/
def readRaw (n : ℕ) (timeout : Option ℕ) (s : St) : RawOut × St :=
  match s.reader.buffer with
  | b :: bs =>
      (.ok ((b :: bs).take n),
        { s with reader := { s.reader with buffer := (b :: bs).drop n } })
  | [] =>
      match s.reader.incoming with
      | (t1, c) :: rest =>
          match timeout with
          | none =>
              (.ok (c.take n),
                { reader := { s.reader with buffer := c.drop n, incoming := rest },
                  now := max s.now t1 })
          | some t =>
              if t1 ≤ s.now + t then
                (.ok (c.take n),
                  { reader := { s.reader with buffer := c.drop n, incoming := rest },
                    now := max s.now t1 })
              else
                (.timedOut, { s with now := s.now + t })
      | [] =>
          if s.reader.closed then (.ok [], s)
          else
            match timeout with
            | none => (.blocked, s)
            | some t => (.timedOut, { s with now := s.now + t })

/-- Bytes still buffered plus bytes and chunks still to arrive; an upper
bound on the number of rounds the `read_until` loop can run. -/
def rMeasure (s : St) : ℕ :=
  s.reader.buffer.length + (s.reader.incoming.map (fun p => p.2.length)).sum
    + s.reader.incoming.length

/-- The `while True` loop of `AsyncRawTelnetWrapper.read_until`
(src/telnet.py lines 65-77), with explicit fuel: each round awaits one
chunk of at most 1024 bytes under the per-round `wait_for` timeout,
appends it to the local `buffer` accumulator (`acc`), stops on a zero
length chunk (connection closed), stops once `expected` occurs as a
substring of the accumulator, and on `asyncio.TimeoutError` returns the
partial accumulator (the `except` clause at lines 76-77). Fuel
exhaustion is reported as `blocked`; it is unreachable from
`read_until`, which supplies more fuel than the loop can consume. -/
def readUntilGo (expected : Bytes) (timeout : Option ℕ) (fuel : ℕ) (acc : Bytes)
    (s : St) : ROut × St :=
  match fuel with
  | 0 => (.blocked, s)
  | fuel' + 1 =>
      match readRaw 1024 timeout s with
      | (.blocked, s') => (.blocked, s')
      | (.timedOut, s') => (.ok acc, s')
      | (.ok chunk, s') =>
          if chunk = [] then (.ok acc, s')
          else
            if expected <:+: (acc ++ chunk) then (.ok (acc ++ chunk), s')
            else readUntilGo expected timeout fuel' (acc ++ chunk) s'

/-- `AsyncRawTelnetWrapper.read_until` (src/telnet.py lines 63-78). -/
def read_until (expected : Bytes) (timeout : Option ℕ) (s : St) : ROut × St :=
  readUntilGo expected timeout (rMeasure s + 1) [] s

/-- The near-zero timeout `0.0001` seconds hard-coded at src/telnet.py
lines 83 and 101: exactly one model time unit. -/
def eagerTimeout : ℕ := 1

/-- `AsyncRawTelnetWrapper.read_some` (src/telnet.py lines 80-87): one read
of at most `n` bytes under the `0.0001` second timeout, returning the empty
byte string when the timeout fires. -/
def read_some (n : ℕ) (s : St) : ROut × St :=
  match readRaw n (some eagerTimeout) s with
  | (.ok d, s') => (.ok d, s')
  | (.timedOut, s') => (.ok [], s')
  | (.blocked, s') => (.blocked, s')

/-- `AsyncRawTelnetWrapper.read_eager` (src/telnet.py lines 89-106): drain
the reader's internal `_buffer` (lines 97-99), then attempt one further read
of at most 1024 bytes under the `0.0001` second timeout, swallowing the
`asyncio.TimeoutError` (lines 100-104), and return the drained bytes
followed by whatever the extra read produced. -/
def read_eager (s : St) : Bytes × St :=
  let buf := s.reader.buffer
  let s1 : St := { s with reader := { s.reader with buffer := [] } }
  match readRaw 1024 (some eagerTimeout) s1 with
  | (.ok more, s2) => (buf ++ more, s2)
  | (.timedOut, s2) => (buf, s2)
  | (.blocked, s2) => (buf, s2)

/-- True when the state offers no byte within `eagerTimeout`: the internal
buffer is empty and the next chunk, if any, arrives strictly after
`now + eagerTimeout`. -/
def noChunkSoon (s : St) : Bool :=
  match s.reader.incoming with
  | [] => true
  | (t1, _) :: _ => decide (s.now + eagerTimeout < t1)

/-- Python exceptions that the wrapper's operations can raise.
`attributeError` is what accessing a method of `None` raises;
`unsupportedOperation` models the `UnsupportedOperation` error class the
specification names (no such class occurs anywhere in src/telnet.py). -/
inductive PyErr where
  | attributeError
  | unsupportedOperation
deriving DecidableEq

/-- Result of a public client operation: a normal return carrying bytes
(`ok []` for the `None`-returning `write`/`close`), a raised exception, or
a call that never returns. -/
inductive COut where
  | ok (b : Bytes)
  | err (e : PyErr)
  | hang
deriving DecidableEq

/-- An `AsyncRawTelnetWrapper` instance: `conn` is `some` state exactly when
`self.reader`/`self.writer` have been set by `open` (they are `None` after
`__init__` with `host=None`, src/telnet.py lines 53-54); `written` records
the byte strings passed to `write`; `closeCalls` counts invocations of the
`close` method. -/
structure Client where
  conn : Option St
  written : List Bytes
  closeCalls : ℕ
deriving DecidableEq

/-- `read_until` at client level: with `self.reader = None` the attribute
access `self.reader.read` inside the coroutine raises `AttributeError`,
which propagates out of `run_until_complete`. -/
def cReadUntil (expected : Bytes) (timeout : Option ℕ) (c : Client) : COut × Client :=
  match c.conn with
  | none => (.err .attributeError, c)
  | some s =>
      match read_until expected timeout s with
      | (.ok b, s') => (.ok b, { c with conn := some s' })
      | (.blocked, s') => (.hang, { c with conn := some s' })

/-- `read_some` at client level (default `n = 1024`). -/
def cReadSome (c : Client) : COut × Client :=
  match c.conn with
  | none => (.err .attributeError, c)
  | some s =>
      match read_some 1024 s with
      | (.ok b, s') => (.ok b, { c with conn := some s' })
      | (.blocked, s') => (.hang, { c with conn := some s' })

/-- `read_eager` at client level. -/
def cReadEager (c : Client) : COut × Client :=
  match c.conn with
  | none => (.err .attributeError, c)
  | some s =>
      match read_eager s with
      | (b, s') => (.ok b, { c with conn := some s' })

/-- `AsyncRawTelnetWrapper.write` (src/telnet.py lines 108-112): with no
connection, `self.writer.write` raises `AttributeError`; otherwise the data
is handed to the transport and the call returns after `drain`. -/
def cWrite (data : Bytes) (c : Client) : COut × Client :=
  match c.conn with
  | none => (.err .attributeError, c)
  | some _ => (.ok [], { c with written := c.written ++ [data] })

/-- `AsyncRawTelnetWrapper.close` (src/telnet.py lines 114-116): the method
invocation is counted, then `self.writer.close()` raises `AttributeError`
when the client was never opened; otherwise the transport shuts down, after
which the reader is at end of stream and no further chunks arrive. -/
def cClose (c : Client) : COut × Client :=
  let c1 : Client := { c with closeCalls := c.closeCalls + 1 }
  match c1.conn with
  | none => (.err .attributeError, c1)
  | some s =>
      let s' : St := { s with reader := { s.reader with closed := true, incoming := [] } }
      (.ok [], { c1 with conn := some s' })

/-- `BaseTelnetWrapper.__enter__` (src/telnet.py line 21): returns `self`. -/
def enter (c : Client) : Client := c

/-- A `with` block over the client: `__enter__` hands the client itself to
the body; when the body terminates (normally or with an exception),
`__exit__` (src/telnet.py line 22) invokes `close()` once; an exception
raised by `close` replaces the body's outcome, otherwise the body's outcome
propagates. A body that never returns never reaches `__exit__`. -/
def scopedUse (c : Client) (body : Client → COut × Client) : COut × Client :=
  match body (enter c) with
  | (.hang, c1) => (.hang, c1)
  | (res, c1) =>
      match cClose c1 with
      | (.err e, c2) => (.err e, c2)
      | (_, c2) => (res, c2)

/-- One interleaved call against a single client's stream (claim C5). -/
inductive Op where
  | readEager
  | readSome
  | readUntil (expected : Bytes) (timeout : Option ℕ)

/-- Run one operation on the reader state, returning the bytes delivered to
the caller, the next state, and whether the call failed to return (a
`read_until` with no timeout and nothing left to read, which blocks its
event loop forever and delivers nothing). -/
def runOp (s : St) : Op → Bytes × St × Bool
  | .readEager =>
      match read_eager s with
      | (b, s') => (b, s', false)
  | .readSome =>
      match read_some 1024 s with
      | (.ok b, s') => (b, s', false)
      | (.blocked, s') => ([], s', true)
  | .readUntil e t =>
      match read_until e t s with
      | (.ok b, s') => (b, s', false)
      | (.blocked, s') => ([], s', true)

/-- Run a sequence of interleaved read operations, concatenating the bytes
each call returns; a call that never returns ends the sequence. -/
def runOps : List Op → St → Bytes × St
  | [], s => ([], s)
  | op :: ops, s =>
      match runOp s op with
      | (b, s', true) => (b, s')
      | (b, s', false) =>
          match runOps ops s' with
          | (rest, s'') => (b ++ rest, s'')

/-- The two transport backends of the module. -/
inductive Backend where
  | stdlib
  | asyncRaw
deriving DecidableEq

/-- The `TelnetWrapper` factory (src/telnet.py lines 118-124), reduced to
its backend choice: it tests only `_has_telnetlib` (whether
`import telnetlib` succeeded, lines 8-12); the `force_stdlib` parameter is
accepted but never read. `import asyncio` (line 6) is unconditional, so the
asynchronous runtime is always available when the module loads. -/
def TelnetWrapper_select (has_telnetlib : Bool) (force_stdlib : Bool) : Backend :=
  if has_telnetlib then .stdlib else .asyncRaw

/-- The backend selection algorithm as the specification states it
(spec §4.3): an explicit force of the synchronous backend wins, otherwise
the asynchronous backend is used whenever an asynchronous-capable runtime is
available, with the synchronous backend as last resort. Stated from the
spec's words for comparison with `TelnetWrapper_select`. -/
def specSelectBackend (force_stdlib async_available : Bool) : Backend :=
  if force_stdlib then .stdlib
  else if async_available then .asyncRaw
  else .stdlib

/-- Thread-global interpreter state touched by `AsyncRawTelnetWrapper.__init__`:
`asyncio.new_event_loop()` allocates a fresh loop and `asyncio.set_event_loop`
(src/telnet.py line 52) installs it as the thread's current loop — state
shared by every instance in the thread. -/
structure AsyncioGlobal where
  currentLoop : Option ℕ
  nextLoopId : ℕ
deriving DecidableEq

/-- The per-instance attributes set by `AsyncRawTelnetWrapper.__init__` with
`host=None`: the private loop id, and no connection yet. -/
structure AsyncClientInit where
  loop : ℕ
  connOpen : Bool
deriving DecidableEq

/-- `AsyncRawTelnetWrapper.__init__` with `host=None` (src/telnet.py lines
50-56): allocate a fresh event loop, install it as the thread's current
loop, and leave reader and writer unset. -/
def asyncInitState (g : AsyncioGlobal) : AsyncClientInit × AsyncioGlobal :=
  let lid := g.nextLoopId
  ({ loop := lid, connOpen := false },
   { currentLoop := some lid, nextLoopId := g.nextLoopId + 1 })

/-! Helper lemmas about one raw read. -/

theorem readRaw_ok_content {n : ℕ} {timeout : Option ℕ} {s : St} {b : Bytes} {s' : St}
    (h : readRaw n timeout s = (.ok b, s')) : b ++ content s' = content s := by
  unfold readRaw at h
  split at h
  case _ x xs heq =>
    rw [Prod.mk.injEq] at h
    obtain ⟨h1, h2⟩ := h
    cases h1
    subst h2
    simp [content, heq, ← List.append_assoc]
  case _ heq =>
    split at h
    case _ t1 c rest heq2 =>
      split at h
      · rw [Prod.mk.injEq] at h
        obtain ⟨h1, h2⟩ := h
        cases h1
        subst h2
        simp [content, heq, heq2, ← List.append_assoc]
      · split at h
        · rw [Prod.mk.injEq] at h
          obtain ⟨h1, h2⟩ := h
          cases h1
          subst h2
          simp [content, heq, heq2, ← List.append_assoc]
        · simp at h
    case _ heq2 =>
      split at h
      · rw [Prod.mk.injEq] at h
        obtain ⟨h1, h2⟩ := h
        cases h1
        subst h2
        simp [content, heq, heq2]
      · split at h <;> simp at h

theorem readRaw_stuck_reader {n : ℕ} {timeout : Option ℕ} {s : St} {r : RawOut} {s' : St}
    (h : readRaw n timeout s = (r, s')) (hr : r = .timedOut ∨ r = .blocked) :
    s'.reader = s.reader := by
  rcases hr with hr | hr <;> subst hr <;>
    (unfold readRaw at h; repeat' split at h) <;> rw [Prod.mk.injEq] at h <;>
      obtain ⟨h1, h2⟩ := h <;>
    first
      | exact RawOut.noConfusion h1
      | rw [← h2]

theorem readRaw_ok_measure {timeout : Option ℕ} {s : St} {c : Bytes} {s' : St}
    (h : readRaw 1024 timeout s = (.ok c, s')) (hc : c ≠ []) :
    rMeasure s' < rMeasure s := by
  unfold readRaw at h
  split at h
  next x xs heq =>
    rw [Prod.mk.injEq] at h
    obtain ⟨h1, h2⟩ := h
    subst h2
    simp [rMeasure, heq]
    omega
  next heq =>
    split at h
    next t1 cc rest heq2 =>
      split at h
      · rw [Prod.mk.injEq] at h
        obtain ⟨h1, h2⟩ := h
        subst h2
        simp [rMeasure, heq, heq2]
        omega
      · split at h
        · rw [Prod.mk.injEq] at h
          obtain ⟨h1, h2⟩ := h
          subst h2
          simp [rMeasure, heq, heq2]
          omega
        · rw [Prod.mk.injEq] at h
          exact RawOut.noConfusion h.1
    next heq2 =>
      split at h
      · rw [Prod.mk.injEq] at h
        obtain ⟨h1, _⟩ := h
        injection h1 with h1
        exact absurd h1.symm hc
      · split at h <;> rw [Prod.mk.injEq] at h <;> exact RawOut.noConfusion h.1

theorem readRaw_some_not_blocked {n t : ℕ} {s : St} {r : RawOut} {s' : St}
    (h : readRaw n (some t) s = (r, s')) : r ≠ .blocked := by
  unfold readRaw at h
  repeat' split at h
  all_goals
    first
      | exact Option.noConfusion ‹some t = none›
      | (rw [Prod.mk.injEq] at h; obtain ⟨h1, h2⟩ := h;
         intro hrb; rw [hrb] at h1; exact RawOut.noConfusion h1)

theorem readRaw_ok_incoming_mem {n : ℕ} {timeout : Option ℕ} {s : St} {c : Bytes} {s' : St}
    (h : readRaw n timeout s = (.ok c, s')) :
    ∀ p ∈ s'.reader.incoming, p ∈ s.reader.incoming := by
  unfold readRaw at h
  split at h
  next x xs heq =>
    rw [Prod.mk.injEq] at h
    obtain ⟨h1, h2⟩ := h
    subst h2
    simp
  next heq =>
    split at h
    next t1 cc rest heq2 =>
      split at h
      · rw [Prod.mk.injEq] at h
        obtain ⟨h1, h2⟩ := h
        subst h2
        intro p hp
        rw [heq2]
        exact List.mem_cons_of_mem _ hp
      · split at h
        · rw [Prod.mk.injEq] at h
          obtain ⟨h1, h2⟩ := h
          subst h2
          intro p hp
          rw [heq2]
          exact List.mem_cons_of_mem _ hp
        · rw [Prod.mk.injEq] at h
          exact RawOut.noConfusion h.1
    next heq2 =>
      split at h
      · rw [Prod.mk.injEq] at h
        obtain ⟨h1, h2⟩ := h
        subst h2
        simp
      · split at h <;> rw [Prod.mk.injEq] at h <;> exact RawOut.noConfusion h.1

theorem readRaw_ok_nil {n : ℕ} {timeout : Option ℕ} {s : St} {s' : St}
    (h : readRaw n timeout s = (.ok [], s')) (hn : 0 < n)
    (hw : ∀ p ∈ s.reader.incoming, p.2 ≠ []) : content s = [] := by
  unfold readRaw at h
  split at h
  next x xs heq =>
    rw [Prod.mk.injEq] at h
    obtain ⟨h1, _⟩ := h
    injection h1 with h1
    rw [List.take_eq_nil_iff] at h1
    rcases h1 with h1 | h1
    · omega
    · exact List.noConfusion h1
  next heq =>
    split at h
    next t1 cc rest heq2 =>
      have hcc : cc ≠ [] := hw (t1, cc) (by rw [heq2]; exact List.mem_cons_self _ _)
      split at h
      · rw [Prod.mk.injEq] at h
        obtain ⟨h1, _⟩ := h
        injection h1 with h1
        rw [List.take_eq_nil_iff] at h1
        rcases h1 with h1 | h1
        · omega
        · exact absurd h1 hcc
      · split at h
        · rw [Prod.mk.injEq] at h
          obtain ⟨h1, _⟩ := h
          injection h1 with h1
          rw [List.take_eq_nil_iff] at h1
          rcases h1 with h1 | h1
          · omega
          · exact absurd h1 hcc
        · rw [Prod.mk.injEq] at h
          exact RawOut.noConfusion h.1
    next heq2 =>
      split at h
      · simp [content, heq, heq2]
      · split at h <;> rw [Prod.mk.injEq] at h <;> exact RawOut.noConfusion h.1

theorem readRaw_blocked_content {n : ℕ} {timeout : Option ℕ} {s : St} {s' : St}
    (h : readRaw n timeout s = (.blocked, s')) : content s = [] := by
  unfold readRaw at h
  repeat' split at h
  all_goals rw [Prod.mk.injEq] at h
  all_goals first
    | exact RawOut.noConfusion h.1
    | simp_all [content]

theorem readRaw_none_not_timedOut {n : ℕ} {s : St} {r : RawOut} {s' : St}
    (h : readRaw n none s = (r, s')) : r ≠ .timedOut := by
  unfold readRaw at h
  repeat' split at h
  all_goals
    first
      | exact Option.noConfusion ‹none = some _›
      | (rw [Prod.mk.injEq] at h; obtain ⟨h1, h2⟩ := h;
         intro hrb; rw [hrb] at h1; exact RawOut.noConfusion h1)

theorem content_congr {s1 s2 : St} (h : s1.reader = s2.reader) :
    content s1 = content s2 := by
  simp [content, h]

theorem readUntilGo_zero (e : Bytes) (timeout : Option ℕ) (acc : Bytes) (s : St) :
    readUntilGo e timeout 0 acc s = (.blocked, s) := rfl

theorem readUntilGo_succ (e : Bytes) (timeout : Option ℕ) (fuel : ℕ) (acc : Bytes) (s : St) :
    readUntilGo e timeout (fuel + 1) acc s =
      match readRaw 1024 timeout s with
      | (.blocked, s') => (.blocked, s')
      | (.timedOut, s') => (.ok acc, s')
      | (.ok chunk, s') =>
          if chunk = [] then (.ok acc, s')
          else
            if e <:+: (acc ++ chunk) then (.ok (acc ++ chunk), s')
            else readUntilGo e timeout fuel (acc ++ chunk) s' := rfl

/-- Whatever the read-until loop does, the bytes it appends to the
accumulator are removed from the front of the remaining stream content:
nothing is duplicated and nothing is invented. -/
theorem readUntilGo_content {e : Bytes} {timeout : Option ℕ} :
    ∀ (fuel : ℕ) (acc : Bytes) (s : St) (r : ROut) (s' : St),
    readUntilGo e timeout fuel acc s = (r, s') →
    ∃ tail, tail ++ content s' = content s ∧ ∀ b, r = .ok b → b = acc ++ tail := by
  intro fuel
  induction fuel with
  | zero =>
    intro acc s r s' h
    rw [readUntilGo_zero, Prod.mk.injEq] at h
    obtain ⟨h1, h2⟩ := h
    refine ⟨[], by rw [h2, List.nil_append], fun b hb => ?_⟩
    rw [hb] at h1
    exact ROut.noConfusion h1
  | succ fuel ih =>
    intro acc s r s' h
    rw [readUntilGo_succ] at h
    split at h
    next s1 heq =>
      rw [Prod.mk.injEq] at h
      obtain ⟨h1, h2⟩ := h
      subst h2
      refine ⟨[], ?_, fun b hb => ?_⟩
      · rw [List.nil_append]
        exact content_congr (readRaw_stuck_reader heq (Or.inr rfl))
      · rw [hb] at h1
        exact ROut.noConfusion h1
    next s1 heq =>
      rw [Prod.mk.injEq] at h
      obtain ⟨h1, h2⟩ := h
      subst h2
      refine ⟨[], ?_, fun b hb => ?_⟩
      · rw [List.nil_append]
        exact content_congr (readRaw_stuck_reader heq (Or.inl rfl))
      · rw [hb] at h1
        injection h1 with h1
        rw [← h1, List.append_nil]
    next chunk s1 heq =>
      split at h
      next hc =>
        subst hc
        rw [Prod.mk.injEq] at h
        obtain ⟨h1, h2⟩ := h
        subst h2
        have hcon := readRaw_ok_content heq
        rw [List.nil_append] at hcon
        refine ⟨[], by rw [List.nil_append, hcon], fun b hb => ?_⟩
        rw [hb] at h1
        injection h1 with h1
        rw [← h1, List.append_nil]
      next hc =>
        split at h
        next hfind =>
          rw [Prod.mk.injEq] at h
          obtain ⟨h1, h2⟩ := h
          subst h2
          refine ⟨chunk, readRaw_ok_content heq, fun b hb => ?_⟩
          rw [hb] at h1
          injection h1 with h1
          rw [← h1]
        next hfind =>
          obtain ⟨tail, htail, hok⟩ := ih (acc ++ chunk) s1 r s' h
          refine ⟨chunk ++ tail, ?_, fun b hb => ?_⟩
          · rw [List.append_assoc, htail]
            exact readRaw_ok_content heq
          · rw [hok b hb, List.append_assoc]

/-- With a caller-supplied timeout the read-until loop always returns
normally (given enough fuel): every wait is bounded, and a
`TimeoutError` is caught and converted into a normal return. -/
theorem readUntilGo_some_ok {e : Bytes} {t : ℕ} :
    ∀ (fuel : ℕ) (acc : Bytes) (s : St), rMeasure s < fuel →
    ∃ b s', readUntilGo e (some t) fuel acc s = (.ok b, s') := by
  intro fuel
  induction fuel with
  | zero =>
    intro acc s hf
    exact absurd hf (Nat.not_lt_zero _)
  | succ fuel ih =>
    intro acc s hf
    rw [readUntilGo_succ]
    rcases hr : readRaw 1024 (some t) s with ⟨ro, s1⟩
    cases ro with
    | blocked => exact absurd rfl (readRaw_some_not_blocked hr)
    | timedOut => exact ⟨acc, s1, rfl⟩
    | ok chunk =>
      by_cases hc : chunk = []
      · refine ⟨acc, s1, ?_⟩
        dsimp only
        rw [if_pos hc]
      · by_cases hfind : e <:+: (acc ++ chunk)
        · refine ⟨acc ++ chunk, s1, ?_⟩
          dsimp only
          rw [if_neg hc, if_pos hfind]
        · have hm : rMeasure s1 < fuel := by
            have := readRaw_ok_measure hr hc
            omega
          obtain ⟨b, s', hgo⟩ := ih (acc ++ chunk) s1 hm
          refine ⟨b, s', ?_⟩
          dsimp only
          rw [if_neg hc, if_neg hfind]
          exact hgo

/-- With no timeout, the read-until loop terminates with a result
containing the delimiter whenever the delimiter occurs in what remains of
the stream (appended to the accumulator so far). -/
theorem readUntilGo_finds {e : Bytes} :
    ∀ (fuel : ℕ) (acc : Bytes) (s : St), rMeasure s < fuel →
    (∀ p ∈ s.reader.incoming, p.2 ≠ []) →
    e <:+: (acc ++ content s) →
    ¬ e <:+: acc →
    ∃ b s', readUntilGo e none fuel acc s = (.ok b, s') ∧ e <:+: b := by
  intro fuel
  induction fuel with
  | zero =>
    intro acc s hf
    exact absurd hf (Nat.not_lt_zero _)
  | succ fuel ih =>
    intro acc s hf hw hin hnot
    rw [readUntilGo_succ]
    rcases hr : readRaw 1024 none s with ⟨ro, s1⟩
    cases ro with
    | blocked =>
      rw [readRaw_blocked_content hr, List.append_nil] at hin
      exact absurd hin hnot
    | timedOut => exact absurd rfl (readRaw_none_not_timedOut hr)
    | ok chunk =>
      by_cases hc : chunk = []
      · subst hc
        rw [readRaw_ok_nil hr (by omega) hw, List.append_nil] at hin
        exact absurd hin hnot
      · by_cases hfind : e <:+: (acc ++ chunk)
        · refine ⟨acc ++ chunk, s1, ?_, hfind⟩
          dsimp only
          rw [if_neg hc, if_pos hfind]
        · have hm : rMeasure s1 < fuel := by
            have := readRaw_ok_measure hr hc
            omega
          have hw1 : ∀ p ∈ s1.reader.incoming, p.2 ≠ [] :=
            fun p hp => hw p (readRaw_ok_incoming_mem hr p hp)
          have hin1 : e <:+: ((acc ++ chunk) ++ content s1) := by
            rw [List.append_assoc, readRaw_ok_content hr]
            exact hin
          obtain ⟨b, s', hgo, hbfind⟩ := ih (acc ++ chunk) s1 hm hw1 hin1 hfind
          refine ⟨b, s', ?_, hbfind⟩
          dsimp only
          rw [if_neg hc, if_neg hfind]
          exact hgo

theorem read_until_content {e : Bytes} {timeout : Option ℕ} {s : St} {r : ROut} {s' : St}
    (h : read_until e timeout s = (r, s')) :
    ∀ b, r = .ok b → b ++ content s' = content s := by
  obtain ⟨tail, htail, hok⟩ := readUntilGo_content (rMeasure s + 1) [] s r s' h
  intro b hb
  rw [hok b hb, List.nil_append]
  exact htail

theorem read_some_content {n : ℕ} {s : St} {r : ROut} {s' : St}
    (h : read_some n s = (r, s')) :
    ∀ b, r = .ok b → b ++ content s' = content s := by
  unfold read_some at h
  split at h
  next d s1 heq =>
    rw [Prod.mk.injEq] at h
    obtain ⟨h1, h2⟩ := h
    subst h2
    intro b hb
    rw [hb] at h1
    injection h1 with h1
    rw [← h1]
    exact readRaw_ok_content heq
  next s1 heq =>
    rw [Prod.mk.injEq] at h
    obtain ⟨h1, h2⟩ := h
    subst h2
    intro b hb
    rw [hb] at h1
    injection h1 with h1
    rw [← h1, List.nil_append]
    exact content_congr (readRaw_stuck_reader heq (Or.inl rfl))
  next s1 heq =>
    rw [Prod.mk.injEq] at h
    obtain ⟨h1, h2⟩ := h
    intro b hb
    rw [hb] at h1
    exact ROut.noConfusion h1

theorem read_eager_content (s : St) :
    (read_eager s).1 ++ content (read_eager s).2 = content s := by
  unfold read_eager
  dsimp only
  split
  next more s2 hr =>
    dsimp only
    rw [List.append_assoc, readRaw_ok_content hr]
    simp [content]
  next s2 hr =>
    dsimp only
    rw [content_congr (readRaw_stuck_reader hr (Or.inl rfl))]
    simp [content]
  next s2 hr =>
    dsimp only
    rw [content_congr (readRaw_stuck_reader hr (Or.inr rfl))]
    simp [content]

theorem runOp_not_halt_content {s : St} {op : Op} {b : Bytes} {s' : St}
    (h : runOp s op = (b, s', false)) : b ++ content s' = content s := by
  cases op with
  | readEager =>
    simp only [runOp] at h
    rcases he : read_eager s with ⟨b0, s0⟩
    rw [he] at h
    rw [Prod.mk.injEq, Prod.mk.injEq] at h
    obtain ⟨h1, h2, _⟩ := h
    subst h1
    subst h2
    have := read_eager_content s
    rw [he] at this
    exact this
  | readSome =>
    simp only [runOp] at h
    split at h
    next b0 s0 heq =>
      rw [Prod.mk.injEq, Prod.mk.injEq] at h
      obtain ⟨h1, h2, _⟩ := h
      subst h1
      subst h2
      exact read_some_content heq b0 rfl
    next s0 heq =>
      rw [Prod.mk.injEq, Prod.mk.injEq] at h
      exact Bool.noConfusion h.2.2
  | readUntil e t =>
    simp only [runOp] at h
    split at h
    next b0 s0 heq =>
      rw [Prod.mk.injEq, Prod.mk.injEq] at h
      obtain ⟨h1, h2, _⟩ := h
      subst h1
      subst h2
      exact read_until_content heq b0 rfl
    next s0 heq =>
      rw [Prod.mk.injEq, Prod.mk.injEq] at h
      exact Bool.noConfusion h.2.2

theorem runOp_halt_nil {s : St} {op : Op} {b : Bytes} {s' : St}
    (h : runOp s op = (b, s', true)) : b = [] := by
  cases op with
  | readEager =>
    simp only [runOp] at h
    rcases he : read_eager s with ⟨b0, s0⟩
    rw [he] at h
    rw [Prod.mk.injEq, Prod.mk.injEq] at h
    exact Bool.noConfusion h.2.2
  | readSome =>
    simp only [runOp] at h
    split at h
    next b0 s0 heq =>
      rw [Prod.mk.injEq, Prod.mk.injEq] at h
      exact Bool.noConfusion h.2.2
    next s0 heq =>
      rw [Prod.mk.injEq, Prod.mk.injEq] at h
      exact h.1.symm
  | readUntil e t =>
    simp only [runOp] at h
    split at h
    next b0 s0 heq =>
      rw [Prod.mk.injEq, Prod.mk.injEq] at h
      exact Bool.noConfusion h.2.2
    next s0 heq =>
      rw [Prod.mk.injEq, Prod.mk.injEq] at h
      exact h.1.symm

theorem runOps_prefix : ∀ (ops : List Op) (s : St), (runOps ops s).1 <+: content s := by
  intro ops
  induction ops with
  | nil =>
    intro s
    exact List.nil_prefix
  | cons op ops ih =>
    intro s
    unfold runOps
    rcases hop : runOp s op with ⟨b, s', halt⟩
    cases halt with
    | true =>
      dsimp only
      rw [runOp_halt_nil hop]
      exact List.nil_prefix
    | false =>
      dsimp only
      rcases hrest : runOps ops s' with ⟨rest, s''⟩
      dsimp only
      have h1 := runOp_not_halt_content hop
      have h2 : rest <+: content s' := by
        have := ih s'
        rw [hrest] at this
        exact this
      obtain ⟨tl, htl⟩ := h2
      exact ⟨tl, by rw [List.append_assoc, htl]; exact h1⟩

theorem read_some_ok (n : ℕ) (s : St) : ∃ b s', read_some n s = (.ok b, s') := by
  unfold read_some
  rcases hr : readRaw n (some eagerTimeout) s with ⟨ro, s1⟩
  cases ro with
  | ok d => exact ⟨d, s1, rfl⟩
  | timedOut => exact ⟨[], s1, rfl⟩
  | blocked => exact absurd rfl (readRaw_some_not_blocked hr)

/-! Concrete states used to witness or refute the claims. -/

/-- An open connection whose peer is merely slow: one byte will arrive at
time 2, after the `0.0001` second budget of `read_some`. -/
def exC2 : St := ⟨⟨[], [(2, [65])], false⟩, 0⟩

/-- A stream delivering one chunk `[1, 2, 7, 3]` in which the delimiter
`[7]` is followed by a further byte. -/
def exC3 : St := ⟨⟨[], [(0, [1, 2, 7, 3])], false⟩, 0⟩

/-- Chunks at times 0.6 s and 1.2 s (6000 and 12000 units); the delimiter
`[7]` arrives only in the second chunk, after a 1 s timeout would expire. -/
def exC4 : St := ⟨⟨[], [(6000, [1]), (12000, [2, 7])], false⟩, 0⟩

/-- A state whose next chunk, available at once, is longer than the fixed
1024-byte read of `read_eager`. -/
def exC10 : St := ⟨⟨[5], [(0, List.replicate 1025 9)], false⟩, 0⟩

/-!  Claim theorems. -/

/-- C1 (counterexample): with `telnetlib` missing and the synchronous
backend explicitly forced, `TelnetWrapper` still returns the asynchronous
backend, while the spec's selection algorithm demands the synchronous one:
`force_stdlib` is accepted but ignored. -/
theorem select_force_stdlib_ignored :
    TelnetWrapper_select false true = Backend.asyncRaw ∧
    specSelectBackend true true = Backend.stdlib ∧
    TelnetWrapper_select false true ≠ specSelectBackend true true := by
  decide

/-- C1 (amended): `TelnetWrapper` ignores `force_stdlib` entirely and
returns the synchronous (stdlib) backend exactly when `telnetlib` imported
successfully, falling back to the raw-asyncio backend otherwise —
regardless of the always-available asynchronous runtime. -/
theorem select_stdlib_iff_has_telnetlib (has_telnetlib force_stdlib : Bool) :
    TelnetWrapper_select has_telnetlib force_stdlib = Backend.stdlib
      ↔ has_telnetlib = true := by
  cases has_telnetlib <;> simp [TelnetWrapper_select]

/-- C2 (counterexample): on an open connection whose peer simply has not
sent anything yet (a byte is on its way at time 2), `read_some` returns the
empty byte string instead of blocking until data arrives. -/
theorem read_some_empty_on_open_slow_peer :
    (read_some 1024 exC2).1 = ROut.ok [] ∧
    exC2.reader.closed = false ∧ exC2.reader.incoming ≠ [] := by
  decide

/-- C2 (amended): `read_some` waits at most the `0.0001` second budget: it
returns the empty byte string exactly when the internal buffer is empty and
no chunk arrives within that budget — whether the connection is closed or
merely slow — and otherwise returns at least one byte. -/
theorem read_some_empty_iff_no_data_soon (s : St) (n : ℕ) (hn : 0 < n)
    (hw : ∀ p ∈ s.reader.incoming, p.2 ≠ []) :
    ∃ b s', read_some n s = (.ok b, s') ∧
      (b = [] ↔ (s.reader.buffer = [] ∧ noChunkSoon s = true)) := by
  rcases s with ⟨⟨buf, inc, cl⟩, now⟩
  cases buf with
  | cons x xs =>
    refine ⟨(x :: xs).take n, ⟨⟨(x :: xs).drop n, inc, cl⟩, now⟩, rfl, ?_⟩
    have hne : (x :: xs).take n ≠ [] := by
      rw [Ne, List.take_eq_nil_iff]
      rintro (h | h)
      · omega
      · exact List.noConfusion h
    simp [hne]
  | nil =>
    cases inc with
    | nil =>
      cases cl
      · exact ⟨[], _, rfl, by simp [noChunkSoon]⟩
      · exact ⟨[], _, rfl, by simp [noChunkSoon]⟩
    | cons p rest =>
      rcases p with ⟨t1, c⟩
      have hcne : c ≠ [] := hw (t1, c) (List.mem_cons_self _ _)
      by_cases hle : t1 ≤ now + eagerTimeout
      · refine ⟨c.take n, ⟨⟨c.drop n, rest, cl⟩, max now t1⟩, ?_, ?_⟩
        · simp [read_some, readRaw, hle]
        · have hne : c.take n ≠ [] := by
            rw [Ne, List.take_eq_nil_iff]
            rintro (h | h)
            · omega
            · exact hcne h
          simp [hne, noChunkSoon]
          omega
      · refine ⟨[], ⟨⟨[], (t1, c) :: rest, cl⟩, now + eagerTimeout⟩, ?_, ?_⟩
        · simp [read_some, readRaw, hle]
        · simp [noChunkSoon]
          omega

/-- C3 (counterexample): the whole chunk `[1, 2, 7, 3]` is returned, one
byte past the first occurrence of the delimiter `[7]`; the shortest prefix
ending at the delimiter would be `[1, 2, 7]`. -/
theorem read_until_returns_past_delimiter :
    (read_until [7] none exC3).1 = ROut.ok [1, 2, 7, 3] ∧
    ROut.ok [1, 2, 7, 3] ≠ ROut.ok [1, 2, 7] := by
  decide

/-- C3 (amended): with no timeout, on a stream whose remaining content
contains the (nonempty) delimiter, `read_until` returns normally with a
prefix of the stream that contains the delimiter as a substring; the result
may extend beyond the first occurrence of the delimiter, up to the end of
the at-most-1024-byte read in which the delimiter completed. -/
theorem read_until_no_timeout_finds_delimiter (e : Bytes) (s : St)
    (he : e ≠ []) (hw : ∀ p ∈ s.reader.incoming, p.2 ≠ [])
    (hin : e <:+: content s) :
    ∃ b s', read_until e none s = (.ok b, s') ∧ e <:+: b ∧ b <+: content s := by
  have hnot : ¬ e <:+: ([] : Bytes) := by
    rw [List.infix_nil]
    exact he
  have hin0 : e <:+: ([] ++ content s) := by
    rw [List.nil_append]
    exact hin
  obtain ⟨b, s', hgo, hfind⟩ :=
    readUntilGo_finds (rMeasure s + 1) [] s (Nat.lt_succ_self _) hw hin0 hnot
  have hru : read_until e none s = (.ok b, s') := hgo
  exact ⟨b, s', hru, hfind, ⟨content s', read_until_content hru b rfl⟩⟩

/-- C4 (counterexample): the `wait_for` timeout restarts for every chunk:
with a 1 second timeout (10000 units) and chunks at 0.6 s and 1.2 s, the
delimiter arrives only after the 1 second deadline, yet `read_until`
returns the full match `[1, 2, 7]` instead of the partial data accumulated
when the timeout expired. -/
theorem read_until_per_chunk_timeout_returns_full_match :
    (read_until [7] (some 10000) exC4).1 = ROut.ok [1, 2, 7] ∧
    exC4.reader.incoming = [(6000, [1]), (12000, [2, 7])] ∧
    exC4.now + 10000 < 12000 := by
  decide

/-- C4 (amended): with a caller-supplied timeout, `read_until` always
returns normally — the internal `TimeoutError` of any single chunk wait is
caught and converted into returning the data accumulated so far, which is
a prefix of the stream (nothing already read is discarded); but the
timeout bounds each chunk wait separately, not the whole call. -/
theorem read_until_with_timeout_returns_ok_prefix (e : Bytes) (t : ℕ) (s : St) :
    ∃ b s', read_until e (some t) s = (.ok b, s') ∧ b <+: content s := by
  obtain ⟨b, s', hgo⟩ := readUntilGo_some_ok (rMeasure s + 1) [] s (Nat.lt_succ_self _)
  have hru : read_until e (some t) s = (.ok b, s') := hgo
  exact ⟨b, s', hru, ⟨content s', read_until_content hru b rfl⟩⟩

/-- C5: for any interleaving of `read_eager`, `read_some` and `read_until`
calls against a fixed injected stream, the concatenation of the returned
byte strings, in call order, is a prefix of the stream content: no byte is
delivered twice and none is skipped. -/
theorem interleaved_reads_single_delivery (ops : List Op) (s : St) :
    (runOps ops s).1 <+: content s :=
  runOps_prefix ops s

/-- C2 (witness): the amended characterization applied to the concrete
slow-peer state `exC2`. -/
theorem read_some_empty_iff_no_data_soon_inst :
    0 < 1024 ∧ (∀ p ∈ exC2.reader.incoming, p.2 ≠ []) ∧
    ∃ b s', read_some 1024 exC2 = (.ok b, s') ∧
      (b = [] ↔ (exC2.reader.buffer = [] ∧ noChunkSoon exC2 = true)) :=
  ⟨by decide, by decide,
    read_some_empty_iff_no_data_soon exC2 1024 (by decide) (by decide)⟩

/-- C3 (witness): the amended delimiter property applied to the concrete
stream `exC3`. -/
theorem read_until_no_timeout_finds_delimiter_inst :
    ([7] : Bytes) ≠ [] ∧
    ∃ b s', read_until [7] none exC3 = (.ok b, s') ∧
      [7] <:+: b ∧ b <+: content exC3 :=
  ⟨by decide,
    read_until_no_timeout_finds_delimiter [7] exC3 (by decide) (by decide) (by decide)⟩

/-- A client constructed with `host=None`: no connection yet (claim C6). -/
def exC6 : Client := ⟨none, [], 0⟩

/-- C6 (counterexample): calling `read_some` before `open` raises
`AttributeError` (the `None` attribute access), not the
`UnsupportedOperation` the claim names. -/
theorem unopened_read_not_unsupportedOperation :
    (cReadSome exC6).1 = COut.err PyErr.attributeError ∧
    (cReadSome exC6).1 ≠ COut.err PyErr.unsupportedOperation := by
  decide

/-- C6 (amended): before `open` has succeeded every operation fails with
`AttributeError`; no operation of the wrapper ever raises
`UnsupportedOperation` (the code defines no such error); and after `close`
the asynchronous backend's `read_some` returns normally (empty at end of
stream) rather than raising. -/
theorem unopened_ops_attributeError_never_unsupported (c : Client) (e d : Bytes)
    (t : Option ℕ) :
    (c.conn = none →
      (cReadUntil e t c).1 = COut.err PyErr.attributeError ∧
      (cReadSome c).1 = COut.err PyErr.attributeError ∧
      (cReadEager c).1 = COut.err PyErr.attributeError ∧
      (cWrite d c).1 = COut.err PyErr.attributeError ∧
      (cClose c).1 = COut.err PyErr.attributeError) ∧
    ((cReadUntil e t c).1 ≠ COut.err PyErr.unsupportedOperation ∧
      (cReadSome c).1 ≠ COut.err PyErr.unsupportedOperation ∧
      (cReadEager c).1 ≠ COut.err PyErr.unsupportedOperation ∧
      (cWrite d c).1 ≠ COut.err PyErr.unsupportedOperation ∧
      (cClose c).1 ≠ COut.err PyErr.unsupportedOperation) ∧
    (∀ s0, c.conn = some s0 → ∃ b, (cReadSome (cClose c).2).1 = COut.ok b) := by
  rcases hc : c.conn with _ | s
  · refine ⟨fun _ => ?_, ?_, ?_⟩
    · simp [cReadUntil, cReadSome, cReadEager, cWrite, cClose, hc]
    · simp [cReadUntil, cReadSome, cReadEager, cWrite, cClose, hc]
    · intro s0 hs0
      exact Option.noConfusion hs0
  · refine ⟨fun h => ?_, ?_, ?_⟩
    · exact Option.noConfusion h
    · refine ⟨?_, ?_, ?_, ?_, ?_⟩
      · rcases hru : read_until e t s with ⟨ro, s'⟩
        cases ro <;> simp [cReadUntil, hc, hru]
      · rcases hrs : read_some 1024 s with ⟨ro, s'⟩
        cases ro <;> simp [cReadSome, hc, hrs]
      · simp [cReadEager, hc]
      · simp [cWrite, hc]
      · simp [cClose, hc]
    · intro s0 hs0
      injection hs0 with hs0
      subst hs0
      obtain ⟨b, s'', hrs⟩ := read_some_ok 1024
        { s with reader := { s.reader with closed := true, incoming := [] } }
      exact ⟨b, by simp [cClose, hc, cReadSome, hrs]⟩

/-- C6 (witness): the amended behaviour at the concrete unopened client. -/
theorem unopened_ops_attributeError_never_unsupported_inst :
    (cReadUntil [7] none exC6).1 = COut.err PyErr.attributeError ∧
    (cReadSome exC6).1 ≠ COut.err PyErr.unsupportedOperation :=
  ⟨((unopened_ops_attributeError_never_unsupported exC6 [7] [2] none).1 rfl).1,
    (unopened_ops_attributeError_never_unsupported exC6 [7] [2] none).2.1.2.1⟩

theorem cClose_closeCalls (c : Client) : (cClose c).2.closeCalls = c.closeCalls + 1 := by
  unfold cClose
  rcases hc : c.conn with _ | s <;> simp [hc]

/-- A client for exercising the scope discipline (claim C7). -/
def exC7 : Client := ⟨none, [], 0⟩

/-- A scope body that fails: the client is returned unchanged together with
a raised exception (claim C7). -/
def exC7Body : Client → COut × Client := fun c => (COut.err PyErr.attributeError, c)

/-- C7: entering a scope hands back the client itself, and whenever the
body terminates — normally or by raising — exiting the scope invokes
`close()` exactly once more than the body itself did. -/
theorem scoped_use_closes_exactly_once (c : Client) (body : Client → COut × Client) :
    enter c = c ∧
    ((body (enter c)).1 ≠ COut.hang →
      (scopedUse c body).2.closeCalls = (body (enter c)).2.closeCalls + 1) := by
  refine ⟨rfl, fun hn => ?_⟩
  unfold scopedUse
  rcases hb : body (enter c) with ⟨res, c1⟩
  have hn' : res ≠ COut.hang := by
    rw [hb] at hn
    exact hn
  cases res with
  | hang => exact absurd rfl hn'
  | ok b =>
    dsimp only
    rcases hcl : cClose c1 with ⟨cres, c2⟩
    have h2 : c2.closeCalls = c1.closeCalls + 1 := by
      have := cClose_closeCalls c1
      rw [hcl] at this
      exact this
    cases cres <;> dsimp only <;> exact h2
  | err e =>
    dsimp only
    rcases hcl : cClose c1 with ⟨cres, c2⟩
    have h2 : c2.closeCalls = c1.closeCalls + 1 := by
      have := cClose_closeCalls c1
      rw [hcl] at this
      exact this
    cases cres <;> dsimp only <;> exact h2

/-- C7 (witness): one scope around a failing body on the concrete client:
exactly one `close` invocation results. -/
theorem scoped_use_closes_exactly_once_inst :
    (exC7Body (enter exC7)).1 ≠ COut.hang ∧
    (scopedUse exC7 exC7Body).2.closeCalls = (exC7Body (enter exC7)).2.closeCalls + 1 :=
  ⟨by decide, (scoped_use_closes_exactly_once exC7 exC7Body).2 (by decide)⟩

/-- An open connection with no byte available within the `read_eager`
budget: the next chunk arrives only at time 5 (claim C8). -/
def exC8 : St := ⟨⟨[], [(5, [9, 9])], false⟩, 0⟩

/-- C8: when no data is currently available — empty internal buffer and no
chunk within the `0.0001` second budget — `read_eager` returns the empty
byte string; the internal `TimeoutError` is swallowed, never surfaced. -/
theorem read_eager_no_data_returns_empty (s : St)
    (hb : s.reader.buffer = []) (hn : noChunkSoon s = true) :
    (read_eager s).1 = [] := by
  rcases s with ⟨⟨buf, inc, cl⟩, now⟩
  dsimp only at hb
  subst hb
  rcases inc with _ | ⟨⟨t1, c⟩, rest⟩
  · cases cl <;> simp [read_eager, readRaw]
  · simp only [noChunkSoon, decide_eq_true_eq] at hn
    have hnle : ¬ (t1 ≤ now + eagerTimeout) := by omega
    simp [read_eager, readRaw, hnle]

/-- C8 (witness): `read_eager` at the concrete no-data-yet state. -/
theorem read_eager_no_data_returns_empty_inst :
    exC8.reader.buffer = [] ∧ noChunkSoon exC8 = true ∧ (read_eager exC8).1 = [] :=
  ⟨by decide, by decide, read_eager_no_data_returns_empty exC8 (by decide) (by decide)⟩

/-- A fresh thread-global asyncio state (claim C9). -/
def exG9 : AsyncioGlobal := ⟨none, 0⟩

/-- C9 (counterexample): constructing a second client mutates state the
first client can observe: `asyncio.set_event_loop` repoints the
thread-global current event loop. -/
theorem async_init_mutates_thread_global_loop :
    (asyncInitState (asyncInitState exG9).2).2.currentLoop
      ≠ (asyncInitState exG9).2.currentLoop := by
  decide

/-- C9 (amended): the two constructions receive distinct private loops, and
each instance's own attributes are untouched by the other's construction;
but `__init__` does mutate shared state: after the second construction the
thread-global current loop is the second instance's loop, no longer the
first's. -/
theorem async_init_private_loop_but_global_current (g : AsyncioGlobal) :
    (asyncInitState g).1.loop ≠ (asyncInitState (asyncInitState g).2).1.loop ∧
    (asyncInitState (asyncInitState g).2).2.currentLoop
      = some (asyncInitState (asyncInitState g).2).1.loop ∧
    (asyncInitState (asyncInitState g).2).2.currentLoop
      ≠ some (asyncInitState g).1.loop := by
  refine ⟨?_, rfl, ?_⟩
  · simp only [asyncInitState]
    omega
  · simp only [asyncInitState, Ne, Option.some.injEq]
    omega

/-- C10 (counterexample): a freshly arrived chunk of 1025 bytes exceeds the
1024-byte read, so after `read_eager` the internal buffer is not empty — it
retains the 1025th byte. -/
theorem read_eager_leaves_excess_in_buffer :
    (read_eager exC10).2.reader.buffer = [9] ∧
    (read_eager exC10).2.reader.buffer ≠ [] := by
  decide

/-- C10 (amended): `read_eager` returns exactly the previously pending
buffer contents followed by any newly read bytes, and the pre-existing
pending buffer is cleared; afterwards the buffer is empty unless the newly
arrived chunk exceeded 1024 bytes, in which case exactly the excess beyond
the first 1024 bytes remains buffered. -/
theorem read_eager_pending_precedes_fresh (s : St) :
    ∃ fresh : Bytes,
      (read_eager s).1 = s.reader.buffer ++ fresh ∧
      ((read_eager s).2.reader.buffer = [] ∨
        ∃ t1 c rest, s.reader.incoming = (t1, c) :: rest ∧ 1024 < c.length ∧
          fresh = c.take 1024 ∧ (read_eager s).2.reader.buffer = c.drop 1024) := by
  rcases s with ⟨⟨buf, inc, cl⟩, now⟩
  rcases inc with _ | ⟨⟨t1, c⟩, rest⟩
  · cases cl
    · exact ⟨[], by simp [read_eager, readRaw], Or.inl (by simp [read_eager, readRaw])⟩
    · exact ⟨[], by simp [read_eager, readRaw], Or.inl (by simp [read_eager, readRaw])⟩
  · by_cases hle : t1 ≤ now + eagerTimeout
    · by_cases hlen : 1024 < c.length
      · refine ⟨c.take 1024, ?_, Or.inr ⟨t1, c, rest, rfl, hlen, rfl, ?_⟩⟩
        · simp [read_eager, readRaw, hle]
        · simp [read_eager, readRaw, hle]
      · refine ⟨c.take 1024, ?_, Or.inl ?_⟩
        · simp [read_eager, readRaw, hle]
        · simp [read_eager, readRaw, hle, List.drop_eq_nil_iff]
          omega
    · exact ⟨[], by simp [read_eager, readRaw, hle], Or.inl (by simp [read_eager, readRaw, hle])⟩

end Telnet
